import Mathlib

/-!
Verification development for the embedding synchronization pipeline in
scripts/generate-embeddings.py.  The Python functions are shallowly embedded:
database tables become lists of rows, the npz archive becomes a record of
optional arrays, fallible code returns Except, and the sentence-transformer
model is an abstract function from strings to vectors.  Vector components are
modelled as exact rationals.
-/

namespace GenEmb

/-- Composite natural key (study_accession, snps, strongest_snp_risk_allele). -/
abbrev Key := String × String × String

/-- An embedding vector; rational components stand for the stored floats. -/
abbrev Vec := List ℚ

/-- A row of the study_embeddings table: composite key plus stored vector. -/
abbrev Row := Key × Vec

/-- The study_embeddings table, as an ordered list of rows. -/
abbrev Table := List Row

/-- The composite keys present in a study_embeddings table. -/
def tableKeys (t : Table) : List Key := t.map Prod.fst

/-- Backend selector, the db_type string returned by get_db_connection. -/
inductive DbType
  | postgres
  | sqlite
deriving DecidableEq

/-- A row of the gwas_catalog source table: the three key columns plus the four
optional free-text columns consumed by the combined_text expression. -/
structure CatalogRow where
  study_accession : String
  snps : String
  strongest_snp_risk_allele : String
  mapped_trait : Option String
  disease_trait : Option String
  study : Option String
  mapped_gene : Option String
deriving DecidableEq

/-- SQL COALESCE(col, empty) applied to a nullable text column. -/
def coalesce (o : Option String) : String := o.getD ""

/-- The combined_text column computed in the fetch_studies query:
COALESCE of mapped_trait, disease_trait, study and mapped_gene joined by
single spaces, in that fixed order. -/
def CatalogRow.combined_text (r : CatalogRow) : String :=
  coalesce r.mapped_trait ++ " " ++ coalesce r.disease_trait ++ " " ++
    coalesce r.study ++ " " ++ coalesce r.mapped_gene

/-- The composite natural key of a catalog row. -/
def CatalogRow.key (r : CatalogRow) : Key :=
  (r.study_accession, r.snps, r.strongest_snp_risk_allele)

/-- The result tuple (study_accession, snps, strongest_snp_risk_allele,
combined_text) that fetch_studies yields for a catalog row. -/
def CatalogRow.fetched (r : CatalogRow) : String × String × String × String :=
  (r.study_accession, r.snps, r.strongest_snp_risk_allele, r.combined_text)

/-- fetch_studies: LEFT JOIN of gwas_catalog with study_embeddings on the three
key columns, WHERE se.study_accession IS NULL, i.e. the catalog rows whose key
has no row in study_embeddings.  The LIMIT clause is appended only when the
Python value limit is truthy, so both None and 0 leave the query uncapped. -/
def fetch_studies (catalog : List CatalogRow) (t : Table) (limit : Option Nat) :
    List (String × String × String × String) :=
  let rows := (catalog.filter (fun r => decide (r.key ∉ tableKeys t))).map CatalogRow.fetched
  match limit with
  | none => rows
  | some n => if n = 0 then rows else rows.take n

/-- Python str.strip with no argument: drop whitespace from both ends. -/
def pyStrip (s : String) : String :=
  String.mk (((s.data.dropWhile Char.isWhitespace).reverse.dropWhile
    Char.isWhitespace).reverse)

/-- The string handed to the model for one input text, from the line
prefixed_texts = [f"search_document: " plus text.strip() for text in texts]. -/
def prefixText (text : String) : String :=
  "search_document: " ++ pyStrip text

/-- generate_embeddings.  The SentenceTransformer is abstracted as a function
model from strings to vectors whose outputs all have width nativeDim, which is
therefore the column count embeddings.shape 1 of the encoded array.  encode
maps the model over the prefixed texts; afterwards each row is truncated to
the requested dimensions exactly when dimensions < nativeDim. -/
def generate_embeddings (model : String → Vec) (nativeDim : Nat)
    (texts : List String) (dimensions : Nat) : List Vec :=
  let embeddings := texts.map (fun text => model (prefixText text))
  if dimensions < nativeDim then embeddings.map (fun e => e.take dimensions)
  else embeddings

/-- Effect of one row of an INSERT ... ON CONFLICT statement on the table.
postgres (ON CONFLICT DO NOTHING): a conflicting row is left untouched.
sqlite (ON CONFLICT DO UPDATE): the conflicting row's vector is overwritten.
A fresh key is appended as a new row. -/
def upsertRow (d : DbType) (t : Table) (row : Row) : Table :=
  if row.1 ∈ tableKeys t then
    match d with
    | .postgres => t
    | .sqlite => t.map (fun r => if r.1 = row.1 then (r.1, row.2) else r)
  else t ++ [row]

/-- One bulk statement over a chunk of rows, processed row by row. -/
def upsertChunk (d : DbType) (t : Table) (chunk : List Row) : Table :=
  chunk.foldl (upsertRow d) t

/-- The upload loop for i in range(0, total, step): each iteration sends the
chunk data from i to i plus step as one bulk statement.  A zero step never
occurs in the script (the chunk sizes are 10000 and the positive default
1000); it is mapped to a no-op here. -/
def uploadChunks (d : DbType) (step : Nat) : Table → List Row → Table
  | t, [] => t
  | t, x :: xs =>
    if _h : step = 0 then t
    else
      uploadChunks d step (upsertChunk d t ((x :: xs).take step)) ((x :: xs).drop step)
termination_by _t rows => rows.length
decreasing_by simp [List.length_drop]; omega

/-- store_embeddings: the postgres branch uploads in chunks of the hardcoded
chunk_size 10000 via execute_values with ON CONFLICT DO NOTHING; the sqlite
branch uploads in chunks of batch_size via executemany with ON CONFLICT DO
UPDATE. -/
def store_embeddings (d : DbType) (batch_size : Nat) (t : Table)
    (rows : List Row) : Table :=
  match d with
  | .postgres => uploadChunks .postgres 10000 t rows
  | .sqlite => uploadChunks .sqlite batch_size t rows

/-- The vector stored under a key: the first matching row's vector. -/
def lookupVec (k : Key) (t : Table) : Option Vec :=
  (t.find? (fun r => decide (r.1 = k))).map Prod.snd

/-- One generate-mode run of main: fetch the studies lacking embeddings,
split them into composite keys and texts, generate the vectors, and store the
resulting pairs. -/
def run_pipeline (d : DbType) (model : String → Vec) (nativeDim dims batch_size : Nat)
    (catalog : List CatalogRow) (t : Table) : Table :=
  let studies := fetch_studies catalog t none
  let composite_keys := studies.map (fun s => (s.1, s.2.1, s.2.2.1))
  let texts := studies.map (fun s => s.2.2.2)
  let embeddings := generate_embeddings model nativeDim texts dims
  store_embeddings d batch_size t (composite_keys.zip embeddings)

/-- In-memory image of the compressed .npz archive.  An Option field is some
exactly when the array of that name is present in the archive. -/
structure NpzFile where
  study_keys : Option (List String)
  study_accessions : Option (List String)
  snps : Option (List String)
  risk_alleles : Option (List String)
  embeddings : List Vec
  dimensions : Nat
deriving DecidableEq

/-- save_embeddings_to_file: store the three key components as separate
arrays, the embedding matrix, and its column count as the dimensions scalar. -/
def save_embeddings_to_file (composite_keys : List Key) (embeddings : List Vec) :
    NpzFile :=
  { study_keys := none
    study_accessions := some (composite_keys.map (fun k => k.1))
    snps := some (composite_keys.map (fun k => k.2.1))
    risk_alleles := some (composite_keys.map (fun k => k.2.2))
    embeddings := embeddings
    dimensions := (embeddings.headD []).length }

/-- Python str.split on one separator character: every occurrence splits,
empty parts are kept, and the empty string splits to one empty part. -/
def splitChars (sep : Char) : List Char → List (List Char)
  | [] => [[]]
  | c :: cs =>
    if c = sep then [] :: splitChars sep cs
    else
      match splitChars sep cs with
      | [] => [[c]]
      | r :: rs => (c :: r) :: rs

/-- Python key.split of one separator character, as strings. -/
def pySplit (s : String) (sep : Char) : List String :=
  (splitChars sep s.data).map String.mk

/-- Message of the ValueError raised for a malformed legacy key. -/
def invalidKeyMessage (key : String) : String :=
  "Invalid study_key format: " ++ key ++ " (expected 3 parts, got " ++
    toString (pySplit key '|').length ++ ")"

/-- The legacy-format loop of load_embeddings_from_file: split each key on the
pipe character, keep it when the split has exactly 3 parts, and raise a
ValueError naming the key otherwise, so no key list is returned at all. -/
def parseLegacyKeys : List String → Except String (List Key)
  | [] => .ok []
  | key :: rest =>
    let parts := pySplit key '|'
    if h : parts.length = 3 then
      (parseLegacyKeys rest).map
        (fun tl => (parts.get ⟨0, by omega⟩, parts.get ⟨1, by omega⟩,
          parts.get ⟨2, by omega⟩) :: tl)
    else .error (invalidKeyMessage key)

/-- The new-format branch of load_embeddings_from_file: read the snps and
risk_alleles arrays (a missing one raises a KeyError) and zip the three
component arrays back into triples. -/
def currentFormatKeys (f : NpzFile) (accs : List String) :
    Except String (List Key) :=
  match f.snps, f.risk_alleles with
  | some s, some r => .ok (accs.zip (s.zip r))
  | none, _ => .error "KeyError: snps"
  | some _, none => .error "KeyError: risk_alleles"

/-- load_embeddings_from_file: the embeddings and dimensions entries are read,
then the format is detected by membership tests, study_keys (old format)
before study_accessions (new format); if neither array is present a
ValueError reports an invalid file format. -/
def load_embeddings_from_file (f : NpzFile) :
    Except String (List Key × List Vec) :=
  match f.study_keys with
  | some ks => (parseLegacyKeys ks).map (fun keys => (keys, f.embeddings))
  | none =>
    match f.study_accessions with
    | some accs => (currentFormatKeys f accs).map (fun keys => (keys, f.embeddings))
    | none => .error "Invalid file format: missing study_keys or study_accessions key"

/-- Modelled from the spec: the detection order the spec describes for
load_embeddings_from_file, namely current-schema markers checked first with
the legacy marker as fallback.  Written from the spec's words, to be compared
with load_embeddings_from_file, which is translated from the source. -/
def load_spec_current_first (f : NpzFile) :
    Except String (List Key × List Vec) :=
  match f.study_accessions with
  | some accs => (currentFormatKeys f accs).map (fun keys => (keys, f.embeddings))
  | none =>
    match f.study_keys with
    | some ks => (parseLegacyKeys ks).map (fun keys => (keys, f.embeddings))
    | none => .error "Invalid file format: missing study_keys or study_accessions key"

/-- Decidable equality for Except, used to evaluate loads on concrete files. -/
instance {ε α : Type} [DecidableEq ε] [DecidableEq α] : DecidableEq (Except ε α)
  | .error e, .error f => decidable_of_iff (e = f) (by simp)
  | .ok x, .ok y => decidable_of_iff (x = y) (by simp)
  | .error _, .ok _ => isFalse (fun hc => Except.noConfusion hc)
  | .ok _, .error _ => isFalse (fun hc => Except.noConfusion hc)

/-- A sample catalog row used for concrete witnesses. -/
def sampleRow : CatalogRow :=
  { study_accession := "GCST0001", snps := "rs123", strongest_snp_risk_allele := "A",
    mapped_trait := some "trait", disease_trait := none, study := none,
    mapped_gene := none }

/-- A sample composite key used for concrete witnesses. -/
def sampleKey : Key := ("GCST0001", "rs123", "A")

/-- A concrete archive carrying both the legacy marker and the current-format
arrays, with the two formats describing different key triples. -/
def bothFormatsFile : NpzFile :=
  { study_keys := some ["A|B|C"], study_accessions := some ["X"],
    snps := some ["Y"], risk_alleles := some ["Z"],
    embeddings := [[1]], dimensions := 1 }

/-- A concrete archive whose dimensions scalar (99) disagrees with both the
column count (2) and the key count (1) of its arrays. -/
def mismatchedFile : NpzFile :=
  { study_keys := none, study_accessions := some ["GCST0002"],
    snps := some ["rs9"], risk_alleles := some ["T"],
    embeddings := [[1, 2]], dimensions := 99 }

/-! Helper lemmas about the store semantics. -/

/-- Updating vectors in place does not change the key column. -/
theorem tableKeys_map_update (t : Table) (k : Key) (v : Vec) :
    tableKeys (t.map (fun r => if r.1 = k then (r.1, v) else r)) = tableKeys t := by
  simp only [tableKeys, List.map_map]
  apply List.map_congr_left
  intro r _
  by_cases hr : r.1 = k <;> simp [hr]

/-- Key membership after one upserted row, for either backend. -/
theorem mem_tableKeys_upsertRow (d : DbType) (t : Table) (row : Row) (k : Key) :
    k ∈ tableKeys (upsertRow d t row) ↔ k ∈ tableKeys t ∨ k = row.1 := by
  unfold upsertRow
  by_cases hm : row.1 ∈ tableKeys t
  · rw [if_pos hm]
    cases d with
    | postgres =>
      constructor
      · exact Or.inl
      · rintro (h | rfl)
        · exact h
        · exact hm
    | sqlite =>
      rw [tableKeys_map_update]
      constructor
      · exact Or.inl
      · rintro (h | rfl)
        · exact h
        · exact hm
  · rw [if_neg hm]
    simp [tableKeys]

/-- Key membership after a row-by-row fold of upserts. -/
theorem mem_tableKeys_foldl (d : DbType) (rows : List Row) (t : Table) (k : Key) :
    k ∈ tableKeys (rows.foldl (upsertRow d) t) ↔
      k ∈ tableKeys t ∨ k ∈ rows.map Prod.fst := by
  induction rows generalizing t with
  | nil => simp
  | cons r rs ih =>
    rw [List.foldl_cons, ih, mem_tableKeys_upsertRow]
    simp only [List.map_cons, List.mem_cons]
    tauto

/-- The chunked upload loop computes the same table as a plain row-by-row
fold, for any positive step. -/
theorem uploadChunks_eq_foldl (d : DbType) (step : Nat) (hstep : step ≠ 0)
    (rows : List Row) (t : Table) :
    uploadChunks d step t rows = rows.foldl (upsertRow d) t := by
  have H : ∀ (n : Nat) (rows : List Row), rows.length ≤ n → ∀ t : Table,
      uploadChunks d step t rows = rows.foldl (upsertRow d) t := by
    intro n
    induction n with
    | zero =>
      intro rows hlen t
      have hnil : rows = [] := List.eq_nil_of_length_eq_zero (Nat.le_zero.mp hlen)
      subst hnil
      rw [uploadChunks]
      rfl
    | succ n ih =>
      intro rows hlen t
      match rows with
      | [] =>
        rw [uploadChunks]
        rfl
      | x :: xs =>
        rw [uploadChunks, dif_neg hstep,
          ih ((x :: xs).drop step) (by simp only [List.length_drop]; omega)]
        conv_rhs => rw [← List.take_append_drop step (x :: xs)]
        rw [List.foldl_append]
        rfl
  exact H rows.length rows le_rfl t

/-- store_embeddings is a row-by-row fold of per-backend upserts whenever
batch_size is positive (the postgres chunk size is the constant 10000). -/
theorem store_embeddings_eq_foldl (d : DbType) (bs : Nat) (hbs : bs ≠ 0)
    (t : Table) (rows : List Row) :
    store_embeddings d bs t rows = rows.foldl (upsertRow d) t := by
  cases d with
  | postgres => exact uploadChunks_eq_foldl _ 10000 (by omega) rows t
  | sqlite => exact uploadChunks_eq_foldl _ bs hbs rows t

/-- Looking a key up past a prefix of rows that do not carry it. -/
theorem lookupVec_append_right (k : Key) (t l : Table) (hk : k ∉ tableKeys t) :
    lookupVec k (t ++ l) = lookupVec k l := by
  unfold lookupVec
  rw [List.find?_append]
  have hnone : t.find? (fun r => decide (r.1 = k)) = none := by
    rw [List.find?_eq_none]
    intro r hr
    simp only [decide_eq_true_eq]
    intro hrk
    exact hk (by unfold tableKeys; exact List.mem_map.mpr ⟨r, hr, hrk⟩)
  rw [hnone, Option.none_or]

/-- Zipping the three component projections of a key list recovers the list. -/
theorem zip_components (ks : List Key) :
    (ks.map (fun k => k.1)).zip ((ks.map (fun k => k.2.1)).zip
      (ks.map (fun k => k.2.2))) = ks := by
  induction ks with
  | nil => rfl
  | cons k ks ih => simp [ih]

/-- Each run of generate_embeddings yields one vector per input text. -/
theorem generate_embeddings_length (model : String → Vec) (nativeDim : Nat)
    (texts : List String) (dims : Nat) :
    (generate_embeddings model nativeDim texts dims).length = texts.length := by
  unfold generate_embeddings
  split <;> simp

/-! Claim theorems. -/

/-- Claim C3: fetch_studies (with no limit) returns no record whose composite
key is present in both gwas_catalog and study_embeddings, and returns every
catalog record whose composite key is absent from study_embeddings. -/
theorem fetch_studies_anti_join (catalog : List CatalogRow) (t : Table) :
    (∀ s ∈ fetch_studies catalog t none, (s.1, s.2.1, s.2.2.1) ∉ tableKeys t) ∧
    (∀ r ∈ catalog, r.key ∉ tableKeys t → r.fetched ∈ fetch_studies catalog t none) := by
  constructor
  · intro s hs
    simp only [fetch_studies, List.mem_map, List.mem_filter,
      decide_eq_true_eq] at hs
    obtain ⟨r, ⟨hr, hnot⟩, rfl⟩ := hs
    exact hnot
  · intro r hr hnot
    simp only [fetch_studies, List.mem_map, List.mem_filter, decide_eq_true_eq]
    exact ⟨r, ⟨hr, hnot⟩, rfl⟩

/-- Witness for fetch_studies_anti_join at a one-row catalog and empty sink. -/
theorem fetch_studies_anti_join_witness :
    sampleRow.fetched ∈ fetch_studies [sampleRow] [] none :=
  (fetch_studies_anti_join [sampleRow] []).2 sampleRow (by decide) (by decide)

/-- Claim C5: saving a list of (key, vector) pairs and loading the resulting
file returns exactly the saved keys and vectors (so in particular the same
key set and vectors within any tolerance). -/
theorem save_load_round_trip (composite_keys : List Key) (embeddings : List Vec) :
    load_embeddings_from_file (save_embeddings_to_file composite_keys embeddings) =
      .ok (composite_keys, embeddings) := by
  unfold load_embeddings_from_file save_embeddings_to_file currentFormatKeys
  simp [zip_components, Except.map]

/-- Claim C7: for a requested dimension strictly below the native dimension,
every vector produced by generate_embeddings is exactly the first dims
components of the untruncated model output, with nothing else applied after
truncation; at the native dimension the output is the untruncated one. -/
theorem generate_embeddings_truncation (model : String → Vec) (nativeDim : Nat)
    (texts : List String) (dims : Nat) (hdims : dims < nativeDim) :
    generate_embeddings model nativeDim texts dims =
      texts.map (fun text => (model (prefixText text)).take dims) ∧
    generate_embeddings model nativeDim texts nativeDim =
      texts.map (fun text => model (prefixText text)) := by
  constructor
  · simp [generate_embeddings, if_pos hdims]
  · simp [generate_embeddings]

/-- Witness for generate_embeddings_truncation at one text and a width-3
model truncated to 2 dimensions. -/
theorem generate_embeddings_truncation_witness :
    (2 : Nat) < 3 ∧
    generate_embeddings (fun _ => ([1, 2, 3] : Vec)) 3 ["text"] 2 =
      ["text"].map (fun text => (((fun _ => ([1, 2, 3] : Vec)) (prefixText text)).take 2)) :=
  ⟨by decide,
    (generate_embeddings_truncation (fun _ => ([1, 2, 3] : Vec)) 3 ["text"] 2
      (by decide)).1⟩

/-- Claim C8 counterexample: prefixing the task marker is not the only
transformation generate_embeddings applies to the raw text before encoding:
the text is also stripped of surrounding whitespace, so for the text
" hello " the encoded string is not the marker followed by that text. -/
theorem prefixText_marker_only_false :
    prefixText " hello " = "search_document: hello" ∧
    prefixText " hello " ≠ "search_document: " ++ " hello " := by
  constructor
  · decide
  · decide

/-- Claim C8 (amended): the string generate_embeddings passes to the model is
the fixed document task marker followed by the whitespace-stripped input
text; stripping and prefixing are the only transformations. -/
theorem generate_embeddings_encoded_strings (model : String → Vec)
    (nativeDim : Nat) (texts : List String) :
    generate_embeddings model nativeDim texts nativeDim =
      texts.map (fun text => model ("search_document: " ++ pyStrip text)) := by
  simp [generate_embeddings, prefixText]

/-- Claim C9 counterexample: with a caller-supplied limit of 0 fetch_studies
does not return at most 0 records; the Python truthiness test skips the
LIMIT clause, and a one-row catalog yields one record. -/
theorem fetch_studies_limit_zero_counterexample :
    (fetch_studies [sampleRow] [] (some 0)).length = 1 ∧
    ¬ (fetch_studies [sampleRow] [] (some 0)).length ≤ 0 := by
  constructor
  · decide
  · decide

/-- Claim C9 (amended): for every positive limit n fetch_studies returns at
most n records; with no limit, and likewise with the falsy limit 0, it
returns every record lacking an embedding. -/
theorem fetch_studies_limit_cap (catalog : List CatalogRow) (t : Table)
    (n : Nat) (hn : 0 < n) :
    (fetch_studies catalog t (some n)).length ≤ n ∧
    fetch_studies catalog t (some 0) = fetch_studies catalog t none ∧
    (∀ r ∈ catalog, r.key ∉ tableKeys t → r.fetched ∈ fetch_studies catalog t none) := by
  refine ⟨?_, ?_, ?_⟩
  · simp only [fetch_studies, if_neg (Nat.pos_iff_ne_zero.mp hn)]
    exact List.length_take_le _ _
  · simp [fetch_studies]
  · intro r hr hnot
    simp only [fetch_studies, List.mem_map, List.mem_filter, decide_eq_true_eq]
    exact ⟨r, ⟨hr, hnot⟩, rfl⟩

/-- Witness for fetch_studies_limit_cap at limit 1 on a one-row catalog. -/
theorem fetch_studies_limit_cap_witness :
    (0 : Nat) < 1 ∧ (fetch_studies [sampleRow] [] (some 1)).length ≤ 1 :=
  ⟨by decide, (fetch_studies_limit_cap [sampleRow] [] 1 (by decide)).1⟩

/-- Claim C1: storing a fresh key with vector v1 and then storing the same
key with vector v2 leaves v1 in the table on the postgres backend (ON
CONFLICT DO NOTHING) and v2 on the sqlite backend (ON CONFLICT DO UPDATE), so
the two store_embeddings backends disagree on every duplicate-key write of
distinct vectors. -/
theorem store_embeddings_conflict_divergence (k : Key) (v1 v2 : Vec)
    (t : Table) (bs : Nat) (hbs : bs ≠ 0) (hk : k ∉ tableKeys t) :
    lookupVec k (store_embeddings .postgres bs
      (store_embeddings .postgres bs t [(k, v1)]) [(k, v2)]) = some v1 ∧
    lookupVec k (store_embeddings .sqlite bs
      (store_embeddings .sqlite bs t [(k, v1)]) [(k, v2)]) = some v2 ∧
    (v1 ≠ v2 →
      lookupVec k (store_embeddings .postgres bs
        (store_embeddings .postgres bs t [(k, v1)]) [(k, v2)]) ≠
      lookupVec k (store_embeddings .sqlite bs
        (store_embeddings .sqlite bs t [(k, v1)]) [(k, v2)])) := by
  have hins : ∀ d, store_embeddings d bs t [(k, v1)] = t ++ [(k, v1)] := by
    intro d
    rw [store_embeddings_eq_foldl d bs hbs]
    show upsertRow d t (k, v1) = t ++ [(k, v1)]
    unfold upsertRow
    rw [if_neg hk]
  have hkmem : k ∈ tableKeys (t ++ [(k, v1)]) := by simp [tableKeys]
  have hpg : lookupVec k (store_embeddings .postgres bs
      (store_embeddings .postgres bs t [(k, v1)]) [(k, v2)]) = some v1 := by
    rw [hins, store_embeddings_eq_foldl _ bs hbs]
    show lookupVec k (upsertRow .postgres (t ++ [(k, v1)]) (k, v2)) = some v1
    unfold upsertRow
    rw [if_pos hkmem]
    rw [lookupVec_append_right k t _ hk]
    simp [lookupVec]
  have hsq : lookupVec k (store_embeddings .sqlite bs
      (store_embeddings .sqlite bs t [(k, v1)]) [(k, v2)]) = some v2 := by
    rw [hins, store_embeddings_eq_foldl _ bs hbs]
    show lookupVec k (upsertRow .sqlite (t ++ [(k, v1)]) (k, v2)) = some v2
    unfold upsertRow
    rw [if_pos hkmem]
    show lookupVec k ((t ++ [(k, v1)]).map
      (fun r => if r.1 = k then (r.1, v2) else r)) = some v2
    rw [List.map_append,
      lookupVec_append_right k _ _ (by rw [tableKeys_map_update]; exact hk)]
    simp [lookupVec]
  refine ⟨hpg, hsq, fun hne h => ?_⟩
  rw [hpg, hsq] at h
  exact hne (Option.some.inj h)

/-- Witness for store_embeddings_conflict_divergence at a concrete fresh key,
vectors and batch size. -/
theorem store_embeddings_conflict_divergence_witness :
    ((1000 : Nat) ≠ 0 ∧ sampleKey ∉ tableKeys ([] : Table)) ∧
    lookupVec sampleKey (store_embeddings .postgres 1000
      (store_embeddings .postgres 1000 [] [(sampleKey, [1])]) [(sampleKey, [2])]) = some [1] ∧
    lookupVec sampleKey (store_embeddings .sqlite 1000
      (store_embeddings .sqlite 1000 [] [(sampleKey, [1])]) [(sampleKey, [2])]) = some [2] :=
  ⟨⟨by decide, by decide⟩,
    (store_embeddings_conflict_divergence sampleKey [1] [2] [] 1000
      (by decide) (by decide)).1,
    (store_embeddings_conflict_divergence sampleKey [1] [2] [] 1000
      (by decide) (by decide)).2.1⟩

/-- Claim C4 counterexample: on an archive carrying both the legacy marker
and the current-format arrays, load_embeddings_from_file takes the legacy
branch, not the current-schema branch the spec describes, so its result
differs from the spec-modelled current-first detection order. -/
theorem load_detection_order_counterexample :
    load_embeddings_from_file bothFormatsFile = .ok ([("A", "B", "C")], [[1]]) ∧
    load_spec_current_first bothFormatsFile = .ok ([("X", "Y", "Z")], [[1]]) ∧
    load_embeddings_from_file bothFormatsFile ≠
      load_spec_current_first bothFormatsFile :=
  ⟨rfl, rfl, by decide⟩

/-- Claim C4 (amended): load_embeddings_from_file checks the legacy marker
study_keys first, falls back to the current-schema markers only when the
legacy marker is absent (agreeing with the spec-modelled order exactly in
that case), and fails with the unrecognized-format error when neither is
present; an archive containing both sets of markers is read as legacy. -/
theorem load_detection_order (f : NpzFile) :
    (∀ ks, f.study_keys = some ks →
      load_embeddings_from_file f =
        (parseLegacyKeys ks).map (fun keys => (keys, f.embeddings))) ∧
    (f.study_keys = none →
      load_embeddings_from_file f = load_spec_current_first f) ∧
    (f.study_keys = none → f.study_accessions = none →
      load_embeddings_from_file f =
        .error "Invalid file format: missing study_keys or study_accessions key") := by
  refine ⟨?_, ?_, ?_⟩
  · intro ks hks
    unfold load_embeddings_from_file
    rw [hks]
  · intro hks
    unfold load_embeddings_from_file load_spec_current_first
    rw [hks]
  · intro hks ha
    unfold load_embeddings_from_file
    rw [hks, ha]

/-- Witness for load_detection_order at the archive carrying both markers. -/
theorem load_detection_order_witness :
    bothFormatsFile.study_keys = some ["A|B|C"] ∧
    load_embeddings_from_file bothFormatsFile =
      (parseLegacyKeys ["A|B|C"]).map
        (fun keys => (keys, bothFormatsFile.embeddings)) :=
  ⟨rfl, (load_detection_order bothFormatsFile).1 ["A|B|C"] rfl⟩

/-- Claim C10: load_embeddings_from_file returns the stored vector array
exactly as read, and its entire result is independent of the dimensions
scalar, so an archive whose dimensions scalar disagrees with the vector
array still loads successfully with the unvalidated array. -/
theorem load_ignores_dimensions (f : NpzFile) (d : Nat) :
    (∀ ks vs, load_embeddings_from_file f = .ok (ks, vs) → vs = f.embeddings) ∧
    load_embeddings_from_file { f with dimensions := d } =
      load_embeddings_from_file f := by
  constructor
  · intro ks vs h
    unfold load_embeddings_from_file at h
    split at h
    · rename_i ksl _
      cases hp : parseLegacyKeys ksl <;> rw [hp] at h <;> simp [Except.map] at h
      exact h.2.symm
    · split at h
      · rename_i accs _
        cases hc : currentFormatKeys f accs <;> rw [hc] at h <;>
          simp [Except.map] at h
        exact h.2.symm
      · exact absurd h (by simp)
  · rfl

/-- Witness for load_ignores_dimensions at the archive whose dimensions
scalar 99 matches neither the column count 2 nor the key count 1. -/
theorem load_ignores_dimensions_witness :
    load_embeddings_from_file mismatchedFile =
      .ok ([("GCST0002", "rs9", "T")], [[1, 2]]) ∧
    [[(1 : ℚ), 2]] = mismatchedFile.embeddings :=
  ⟨rfl, (load_ignores_dimensions mismatchedFile 0).1
    [("GCST0002", "rs9", "T")] [[1, 2]] rfl⟩

/-- Unfolding one step of the legacy-key parse. -/
theorem parseLegacyKeys_cons (key : String) (rest : List String) :
    parseLegacyKeys (key :: rest) =
      if h : (pySplit key '|').length = 3 then
        (parseLegacyKeys rest).map
          (fun tl => ((pySplit key '|').get ⟨0, by omega⟩,
            (pySplit key '|').get ⟨1, by omega⟩,
            (pySplit key '|').get ⟨2, by omega⟩) :: tl)
      else .error (invalidKeyMessage key) := rfl

/-- Claim C6: loading legacy keys splits each string on the pipe delimiter;
the parse succeeds exactly when every key string splits into exactly three
parts, and otherwise it raises the ValueError naming an offending key, so no
key list at all is returned on failure. -/
theorem parseLegacyKeys_spec (ks : List String) :
    ((∃ l, parseLegacyKeys ks = .ok l) ↔
      ∀ k ∈ ks, (pySplit k '|').length = 3) ∧
    (∀ e, parseLegacyKeys ks = .error e →
      ∃ k ∈ ks, (pySplit k '|').length ≠ 3 ∧ e = invalidKeyMessage k) := by
  induction ks with
  | nil =>
    constructor
    · simp [parseLegacyKeys]
    · intro e he
      exact Except.noConfusion he
  | cons key rest ih =>
    by_cases h3 : (pySplit key '|').length = 3
    · cases hrest : parseLegacyKeys rest with
      | ok l0 =>
        have heq : parseLegacyKeys (key :: rest) =
            .ok (((pySplit key '|').get ⟨0, by omega⟩,
              (pySplit key '|').get ⟨1, by omega⟩,
              (pySplit key '|').get ⟨2, by omega⟩) :: l0) := by
          rw [parseLegacyKeys_cons, dif_pos h3, hrest]
          rfl
        constructor
        · constructor
          · intro _ k hk
            rcases List.mem_cons.mp hk with rfl | hk2
            · exact h3
            · exact ih.1.mp ⟨l0, hrest⟩ k hk2
          · intro _
            exact ⟨_, heq⟩
        · intro e he
          rw [heq] at he
          exact Except.noConfusion he
      | error e0 =>
        have heq : parseLegacyKeys (key :: rest) = .error e0 := by
          rw [parseLegacyKeys_cons, dif_pos h3, hrest]
          rfl
        constructor
        · constructor
          · intro hex
            obtain ⟨l, hl⟩ := hex
            rw [heq] at hl
            exact Except.noConfusion hl
          · intro hall
            obtain ⟨l, hl⟩ :=
              ih.1.mpr (fun k hk => hall k (List.mem_cons_of_mem _ hk))
            rw [hrest] at hl
            exact Except.noConfusion hl
        · intro e he
          rw [heq] at he
          have he0 : e0 = e := by simpa using he
          obtain ⟨k, hk, hk3, hke⟩ := ih.2 e0 hrest
          refine ⟨k, List.mem_cons_of_mem _ hk, hk3, ?_⟩
          rw [← he0]
          exact hke
    · have heq : parseLegacyKeys (key :: rest) =
          .error (invalidKeyMessage key) := by
        rw [parseLegacyKeys_cons, dif_neg h3]
      constructor
      · constructor
        · intro hex
          obtain ⟨l, hl⟩ := hex
          rw [heq] at hl
          exact Except.noConfusion hl
        · intro hall
          exact absurd (hall key (List.mem_cons_self _ _)) h3
      · intro e he
        rw [heq] at he
        have he0 : invalidKeyMessage key = e := by simpa using he
        exact ⟨key, List.mem_cons_self _ _, h3, he0.symm⟩

/-- Witness for parseLegacyKeys_spec: the documented key loads, and a key
with a single delimiter fails with the ValueError naming it. -/
theorem parseLegacyKeys_spec_witness :
    (∃ l, parseLegacyKeys ["GCST0001|rs123|A"] = .ok l) ∧
    (∃ k ∈ ["GCST0001|rs123"], (pySplit k '|').length ≠ 3 ∧
      "Invalid study_key format: GCST0001|rs123 (expected 3 parts, got 2)" =
        invalidKeyMessage k) :=
  ⟨(parseLegacyKeys_spec ["GCST0001|rs123|A"]).1.mpr (by decide),
    (parseLegacyKeys_spec ["GCST0001|rs123"]).2
      "Invalid study_key format: GCST0001|rs123 (expected 3 parts, got 2)" rfl⟩

/-- Claim C2: one generate-mode pipeline run (fetch the studies lacking
embeddings, generate their vectors, store them) is idempotent: running it
twice from any initial state yields the same study_embeddings table as
running it once, for either backend and any positive upload batch size. -/
theorem run_pipeline_idempotent (d : DbType) (model : String → Vec)
    (nativeDim dims bs : Nat) (hbs : bs ≠ 0) (catalog : List CatalogRow)
    (t : Table) :
    run_pipeline d model nativeDim dims bs catalog
        (run_pipeline d model nativeDim dims bs catalog t) =
      run_pipeline d model nativeDim dims bs catalog t := by
  have hkeys : ∀ r ∈ catalog,
      r.key ∈ tableKeys (run_pipeline d model nativeDim dims bs catalog t) := by
    intro r hr
    unfold run_pipeline
    rw [store_embeddings_eq_foldl d bs hbs, mem_tableKeys_foldl]
    by_cases hmem : r.key ∈ tableKeys t
    · exact Or.inl hmem
    · right
      have hlen : ((fetch_studies catalog t none).map
          (fun s => (s.1, s.2.1, s.2.2.1))).length ≤
          (generate_embeddings model nativeDim
            ((fetch_studies catalog t none).map (fun s => s.2.2.2)) dims).length := by
        rw [generate_embeddings_length]
        simp
      rw [List.map_fst_zip _ _ hlen]
      refine List.mem_map.mpr ⟨r.fetched, ?_, rfl⟩
      simp only [fetch_studies, List.mem_map, List.mem_filter, decide_eq_true_eq]
      exact ⟨r, ⟨hr, hmem⟩, rfl⟩
  have hfetch : fetch_studies catalog
      (run_pipeline d model nativeDim dims bs catalog t) none = [] := by
    simp only [fetch_studies, List.map_eq_nil_iff, List.filter_eq_nil_iff,
      decide_eq_true_eq, not_not]
    exact hkeys
  have hrun_nil : ∀ t2 : Table, fetch_studies catalog t2 none = [] →
      run_pipeline d model nativeDim dims bs catalog t2 = t2 := by
    intro t2 h2
    simp only [run_pipeline, h2, List.map_nil, List.zip_nil_left]
    rw [store_embeddings_eq_foldl d bs hbs]
    rfl
  exact hrun_nil _ hfetch

/-- Witness for run_pipeline_idempotent at the sqlite backend, a constant
model and a one-row catalog. -/
theorem run_pipeline_idempotent_witness :
    (1000 : Nat) ≠ 0 ∧
    run_pipeline .sqlite (fun _ => [1]) 768 512 1000 [sampleRow]
        (run_pipeline .sqlite (fun _ => [1]) 768 512 1000 [sampleRow] []) =
      run_pipeline .sqlite (fun _ => [1]) 768 512 1000 [sampleRow] [] :=
  ⟨by decide, run_pipeline_idempotent .sqlite (fun _ => [1]) 768 512 1000
    (by decide) [sampleRow] []⟩

end GenEmb
